import Mathlib

/-!
Shallow embedding of `fedrep/models.py` (the FedRep baseline): the `ModelSplit`
body/head parameter management and the `ModelManager` two-phase training and
fine-tune-then-evaluate procedures.  Numeric tensor entries are embedded as
exact fractions of integers (an idealization of float arithmetic); the
concrete network, its forward pass, its loss value and its gradients are
abstract in the source (`_create_model`, `_get_model_parts` are abstract
methods), so they are abstracted here into an `Oracle` of loss, gradient and
correct-prediction functions.  Python exceptions are embedded as `Except`.
The filesystem slot holding one clients persisted head state is an explicit
`Option StateDict` value threaded through `train` and `test`.
-/

deriving instance DecidableEq for Except

namespace Fedrep

/-- An exact fraction of integers, kept unnormalized.  Embeds the float
scalars of the source; all values the program ever builds have a nonzero
denominator. -/
structure Frac where
  num : Int
  den : Int
deriving DecidableEq

/-- Addition of fractions. -/
def Frac.add (a b : Frac) : Frac := ⟨a.num * b.den + b.num * a.den, a.den * b.den⟩

/-- Subtraction of fractions. -/
def Frac.sub (a b : Frac) : Frac := ⟨a.num * b.den - b.num * a.den, a.den * b.den⟩

/-- Multiplication of fractions. -/
def Frac.mul (a b : Frac) : Frac := ⟨a.num * b.num, a.den * b.den⟩

/-- Division of fractions; the caller guards the zero-denominator case, as the
embedded program raises `ZeroDivisionError` there. -/
def Frac.div (a b : Frac) : Frac := ⟨a.num * b.den, a.den * b.num⟩

/-- The fraction for an integer. -/
def Frac.ofInt (n : Int) : Frac := ⟨n, 1⟩

/-- The fraction for a natural number (used for the correct/total counters). -/
def Frac.ofNat (n : Nat) : Frac := ⟨(n : Int), 1⟩

/-- Zero test, as the torch SGD optimizer tests `momentum != 0`. -/
def Frac.isZero (a : Frac) : Bool := a.num = 0

/-- The momentum constant 0.5 passed to the SGD optimizer in `train`. -/
def halfMomentum : Frac := ⟨1, 2⟩

/-- A tensor: a shape together with its flattened entries.  The host/device
distinction of the source is dropped (`.cpu().numpy()` is the identity here).
-/
structure Tensor where
  shape : List Nat
  data : List Frac
deriving DecidableEq

/-- A state dict of one sub-module: the ordered association list from
parameter names to tensors, as produced by `state_dict()`. -/
abbrev StateDict := List (String × Tensor)

/-- One registered parameter of a module: its name, its tensor value and its
`requires_grad` flag. -/
structure Param where
  name : String
  value : Tensor
  requiresGrad : Bool
deriving DecidableEq

/-- Name lookup in a state dict; the first binding wins.  A Python dict has no
duplicate keys, so on dicts the program actually builds this is exact. -/
def sdLookup : StateDict → String → Option Tensor
  | [], _ => none
  | kv :: rest, n => if kv.1 = n then some kv.2 else sdLookup rest n

/-- The `state_dict()` of a parameter list. -/
def stateDictOf (ps : List Param) : StateDict := ps.map (fun p => (p.name, p.value))

/-- Embedding of `nn.Module.load_state_dict(sd, strict)` restricted to one
parameter list: a size mismatch on a matched key raises regardless of
`strict`; with `strict = true` any missing or unexpected key raises; otherwise
every matched parameter is overwritten in place (the `requires_grad` flag is
untouched) and unmatched parameters keep their values. -/
def loadStateDict (strict : Bool) (ps : List Param) (sd : StateDict) :
    Except String (List Param) :=
  let missing := ps.filter (fun p => (sdLookup sd p.name).isNone)
  let unexpected := sd.filter (fun kv => !(ps.any (fun p => p.name = kv.1)))
  let shapeBad := ps.any (fun p =>
    match sdLookup sd p.name with
    | some t => decide (t.shape ≠ p.value.shape)
    | none => false)
  if shapeBad then
    .error "RuntimeError: size mismatch in load_state_dict"
  else if strict && (!missing.isEmpty || !unexpected.isEmpty) then
    .error "RuntimeError: missing or unexpected keys in load_state_dict"
  else
    .ok (ps.map (fun p =>
      match sdLookup sd p.name with
      | some t => { p with value := t }
      | none => p))

/-- The split model of `ModelSplit`: the body and head parameter lists, which
the abstract `_get_model_parts` produced from the full model (`models.py`
line 33). -/
structure ModelSplit where
  body : List Param
  head : List Param
deriving DecidableEq

/-- The `body` property setter (`models.py` lines 53-60):
`self.body.load_state_dict(state_dict, strict=True)`. -/
def ModelSplit.setBody (m : ModelSplit) (sd : StateDict) : Except String ModelSplit :=
  match loadStateDict true m.body sd with
  | .ok b => .ok { m with body := b }
  | .error e => .error e

/-- The `head` property setter (`models.py` lines 67-74):
`self.head.load_state_dict(state_dict, strict=True)`. -/
def ModelSplit.setHead (m : ModelSplit) (sd : StateDict) : Except String ModelSplit :=
  match loadStateDict true m.head sd with
  | .ok h => .ok { m with head := h }
  | .error e => .error e

/-- `get_parameters` (`models.py` lines 76-89): the body state-dict values
followed by the head state-dict values, in structural order. -/
def ModelSplit.get_parameters (m : ModelSplit) : List Tensor :=
  (stateDictOf m.body).map (fun kv => kv.2) ++ (stateDictOf m.head).map (fun kv => kv.2)

/-- A key of the full-module state dict.  The nn.Module state dict of
`ModelSplit` prefixes body keys with `_body.` and head keys with `_head.`;
the tag plays the role of that prefix (so body and head keys can never
collide), and `other` stands for a foreign key matching neither sub-module. -/
inductive Key where
  | body (n : String)
  | head (n : String)
  | other (n : String)
deriving DecidableEq

/-- The full-module state dict, with tagged keys: body entries first (the body
is registered first in `__init__`), then head entries. -/
abbrev FullSD := List (Key × Tensor)

/-- Key lookup in a full-module state dict; the first binding wins. -/
def fsdLookup : FullSD → Key → Option Tensor
  | [], _ => none
  | kv :: rest, k => if kv.1 = k then some kv.2 else fsdLookup rest k

/-- The parameter names of the full module, body first, in state-dict order. -/
def fullKeys (m : ModelSplit) : List Key :=
  m.body.map (fun p => Key.body p.name) ++ m.head.map (fun p => Key.head p.name)

/-- `self.state_dict()` of the full split module. -/
def fullStateDict (m : ModelSplit) : FullSD :=
  m.body.map (fun p => (Key.body p.name, p.value))
    ++ m.head.map (fun p => (Key.head p.name, p.value))

/-- One entry of the `dict.update` step of `set_parameters`: an entry of the
current full state dict is overwritten in place when the supplied mapping
binds its key, and kept otherwise. -/
def updByK (sd : FullSD) (kv : Key × Tensor) : Key × Tensor :=
  match fsdLookup sd kv.1 with
  | some t => (kv.1, t)
  | none => kv

/-- The entries of a full-module state dict addressed to the body sub-module
(the keys carrying the `_body.` prefix), with the prefix stripped. -/
def projBody (kv : Key × Tensor) : Option (String × Tensor) :=
  match kv.1 with
  | Key.body n => some (n, kv.2)
  | _ => none

/-- The entries of a full-module state dict addressed to the head sub-module.
-/
def projHead (kv : Key × Tensor) : Option (String × Tensor) :=
  match kv.1 with
  | Key.head n => some (n, kv.2)
  | _ => none

/-- The `ordered_state_dict` of `set_parameters`: the copy of the current
full state dict after `update` with the supplied mapping — existing keys are
overwritten in place, foreign keys are appended at the end, as Python dict
update does. -/
def orderedOf (m : ModelSplit) (sd : FullSD) : FullSD :=
  (fullStateDict m).map (updByK sd)
    ++ sd.filter (fun kv => !((fullStateDict m).any (fun kv2 => kv2.1 = kv.1)))

/-- `set_parameters` (`models.py` lines 91-100): copy the current full state
dict, `update` it with the supplied mapping, then
`load_state_dict(ordered, strict=False)` on the full module, which dispatches
the body-tagged and head-tagged entries to the two sub-modules and silently
ignores the rest. -/
def ModelSplit.set_parameters (m : ModelSplit) (sd : FullSD) : Except String ModelSplit :=
  match loadStateDict false m.body ((orderedOf m sd).filterMap projBody),
      loadStateDict false m.head ((orderedOf m sd).filterMap projHead) with
  | .ok b, .ok h => .ok { body := b, head := h }
  | .error e, _ => .error e
  | _, .error e => .error e

/-- Set the `requires_grad` flag of every parameter in the list. -/
def setGradFlags (ps : List Param) (b : Bool) : List Param :=
  ps.map (fun p => { p with requiresGrad := b })

/-- `enable_head` (`models.py` lines 102-105). -/
def ModelSplit.enable_head (m : ModelSplit) : ModelSplit :=
  { m with head := setGradFlags m.head true }

/-- `enable_body` (`models.py` lines 107-110). -/
def ModelSplit.enable_body (m : ModelSplit) : ModelSplit :=
  { m with body := setGradFlags m.body true }

/-- `disable_head` (`models.py` lines 112-115). -/
def ModelSplit.disable_head (m : ModelSplit) : ModelSplit :=
  { m with head := setGradFlags m.head false }

/-- `disable_body` (`models.py` lines 117-120). -/
def ModelSplit.disable_body (m : ModelSplit) : ModelSplit :=
  { m with body := setGradFlags m.body false }

/-- One minibatch yielded by a data loader: a batch of inputs and the matching
labels; `labels.size(0)` is `labels.length`. -/
structure Batch where
  images : List (List Frac)
  labels : List Int
deriving DecidableEq

/-- The abstract numeric semantics of the concrete network, which `models.py`
never defines (`_create_model` and the forward pass of body and head are
abstract): the cross-entropy loss value of a forward pass, the gradient of
that loss with respect to a named parameter, and the number of correct
argmax predictions in a batch. -/
structure Oracle where
  lossOf : ModelSplit → Batch → Frac
  gradOf : ModelSplit → Batch → Key → List Frac
  correctOf : ModelSplit → Batch → Nat

/-- The per-parameter momentum buffers of one `torch.optim.SGD` instance. -/
structure OptState where
  buffers : List (Key × List Frac)
deriving DecidableEq

/-- Buffer lookup. -/
def bufLookup : List (Key × List Frac) → Key → Option (List Frac)
  | [], _ => none
  | kv :: rest, k => if kv.1 = k then some kv.2 else bufLookup rest k

/-- Buffer update. -/
def bufSet (o : OptState) (k : Key) (v : List Frac) : OptState :=
  ⟨(k, v) :: o.buffers.filter (fun kv => !(kv.1 = k))⟩

/-- Resize a flattened gradient to the length of the parameter it belongs to.
Autograd always yields a gradient of exactly the shape of its parameter; this
imposes that invariant on the abstract oracle. -/
def fitTo (n : Nat) (xs : List Frac) : List Frac :=
  xs.take n ++ List.replicate (n - xs.length) (Frac.ofInt 0)

/-- One `optimizer.step()` update of a single parameter from its gradient,
following torch SGD (no dampening, no weight decay, no nesterov): with zero
momentum the buffer is unused, otherwise the buffer is `grad` on first use
and `momentum * buf + grad` afterwards, and the parameter moves by
`-lr * buf`. -/
def sgdParamStep (lr mom : Frac) (k : Key) (g : List Frac) (p : Param) (o : OptState) :
    Param × OptState :=
  let n := p.value.data.length
  let g := fitTo n g
  if mom.isZero then
    ({ p with value := { p.value with
        data := List.zipWith (fun x d => x.sub (lr.mul d)) p.value.data g } }, o)
  else
    let buf := match bufLookup o.buffers k with
      | none => g
      | some b => List.zipWith (fun x y => (mom.mul x).add y) (fitTo n b) g
    ({ p with value := { p.value with
        data := List.zipWith (fun x d => x.sub (lr.mul d)) p.value.data buf } },
      bufSet o k buf)

/-- Walk one parameter list during `loss.backward(); optimizer.step()`: a
parameter with `requires_grad = False` receives no gradient (`zero_grad` left
its slot empty) and the optimizer skips it; the others take an SGD step. -/
def stepParams (lr mom : Frac) (tag : String → Key) (g : String → List Frac) :
    List Param → OptState → List Param × OptState
  | [], o => ([], o)
  | p :: ps, o =>
    if p.requiresGrad then
      let r1 := sgdParamStep lr mom (tag p.name) (g p.name) p o
      let r2 := stepParams lr mom tag g ps r1.2
      (r1.1 :: r2.1, r2.2)
    else
      let r := stepParams lr mom tag g ps o
      (p :: r.1, r.2)

/-- One `backward` plus `step` over the whole split model: gradients are taken
at the pre-step model, body parameters first, then head parameters, threading
the optimizer state. -/
def sgdStepModel (O : Oracle) (lr mom : Frac) (b : Batch) (m : ModelSplit) (o : OptState) :
    ModelSplit × OptState :=
  let rb := stepParams lr mom Key.body (fun n => O.gradOf m b (Key.body n)) m.body o
  let rh := stepParams lr mom Key.head (fun n => O.gradOf m b (Key.head n)) m.head rb.2
  (⟨rb.1, rh.1⟩, rh.2)

/-- The accumulator of the `train` loop: the evolving model, the optimizer
state, the `loss` variable (`none` embeds its initial Python float `0.0`,
which has no `.item()`), and the running correct/total counters. -/
structure TrainAcc where
  model : ModelSplit
  opt : OptState
  loss : Option Frac
  correct : Nat
  total : Nat
deriving DecidableEq

/-- One iteration of the inner minibatch loop of `train` (`models.py` lines
210-218): forward, loss, `zero_grad`, `backward`, `step`, then update the
total and correct counters from the pre-step outputs. -/
def trainBatchStep (O : Oracle) (lr mom : Frac) (s : TrainAcc) (b : Batch) : TrainAcc :=
  let l := O.lossOf s.model b
  let r := sgdStepModel O lr mom b s.model s.opt
  { model := r.1, opt := r.2, loss := some l,
    correct := s.correct + O.correctOf s.model b,
    total := s.total + b.labels.length }

/-- One pass over the training loader. -/
def runEpoch (O : Oracle) (lr mom : Frac) (loader : List Batch) (s : TrainAcc) : TrainAcc :=
  loader.foldl (trainBatchStep O lr mom) s

/-- The gradient toggles a `train` epoch runs under: whether body gradients
and head gradients are enabled for that epoch. -/
structure EpochLog where
  bodyGrad : Bool
  headGrad : Bool
deriving DecidableEq

/-- The toggle setting of a head-phase epoch: body disabled, head enabled. -/
def headPhaseLog : EpochLog := ⟨false, true⟩

/-- The toggle setting of a representation-phase epoch: body enabled, head
disabled. -/
def repPhaseLog : EpochLog := ⟨true, false⟩

/-- A head-phase epoch of `train` (`models.py` lines 204-206):
`disable_body(); enable_head()` then one pass of minibatch SGD with the
momentum-0.5 optimizer. -/
def headEpoch (O : Oracle) (lr : Frac) (loader : List Batch) (s : TrainAcc) : TrainAcc :=
  runEpoch O lr halfMomentum loader { s with model := (s.model.disable_body).enable_head }

/-- A representation-phase epoch of `train` (`models.py` lines 207-209):
`enable_body(); disable_head()` then one pass of minibatch SGD with the same
optimizer. -/
def repEpoch (O : Oracle) (lr : Frac) (loader : List Batch) (s : TrainAcc) : TrainAcc :=
  runEpoch O lr halfMomentum loader { s with model := (s.model.enable_body).disable_head }

/-- Epoch `i` of the `train` loop (`models.py` lines 203-218): the head phase
while `i < num_local_epochs`, the representation phase afterwards; the epoch
toggle setting is recorded in the log. -/
def trainEpochIter (O : Oracle) (lr : Frac) (loader : List Batch) (nLocal : Int)
    (acc : TrainAcc × List EpochLog) (i : Nat) : TrainAcc × List EpochLog :=
  if (i : Int) < nLocal then
    (headEpoch O lr loader acc.1, acc.2 ++ [headPhaseLog])
  else
    (repEpoch O lr loader acc.1, acc.2 ++ [repPhaseLog])

/-- The full epoch loop of `train`: `for i in range(num_local_epochs +
num_rep_epochs)`, with one optimizer state threaded through all epochs. -/
def trainLoop (O : Oracle) (lr : Frac) (loader : List Batch) (nLocal nRep : Int)
    (s0 : TrainAcc) : TrainAcc × List EpochLog :=
  (List.range (nLocal + nRep).toNat).foldl (trainEpochIter O lr loader nLocal) (s0, [])

/-- The state at optimizer creation (`models.py` lines 196-200): fresh
momentum buffers, `correct, total = 0, 0`, `loss = 0.0` (a float). -/
def initAcc (m : ModelSplit) : TrainAcc :=
  { model := m, opt := ⟨[]⟩, loss := none, correct := 0, total := 0 }

/-- The configuration fields `ModelManager` reads; an absent optional field
embeds a config object without that attribute (`hasattr` false). -/
structure Config where
  server_device : String
  num_local_epochs : Option Int
  num_rep_epochs : Option Int
  num_finetune_epochs : Option Int
deriving DecidableEq

/-- Modelled from the spec: the named default epoch constants
`DEFAULT_LOCAL_TRAIN_EPOCHS`, `DEFAULT_REPRESENTATION_EPOCHS` and
`DEFAULT_FINETUNE_EPOCHS` are imported from `fedrep/constants.py`, which is
not among the given sources; the spec fixes only that they are named
constants used as fallbacks, so they are carried as abstract data. -/
structure Defaults where
  DEFAULT_LOCAL_TRAIN_EPOCHS : Int
  DEFAULT_REPRESENTATION_EPOCHS : Int
  DEFAULT_FINETUNE_EPOCHS : Int
deriving DecidableEq

/-- Resolution of `num_local_epochs` (`models.py` lines 187-189). -/
def resolvedLocalEpochs (D : Defaults) (c : Config) : Int :=
  c.num_local_epochs.getD D.DEFAULT_LOCAL_TRAIN_EPOCHS

/-- Resolution of `num_rep_epochs` (`models.py` lines 191-193). -/
def resolvedRepEpochs (D : Defaults) (c : Config) : Int :=
  c.num_rep_epochs.getD D.DEFAULT_REPRESENTATION_EPOCHS

/-- Resolution of `num_finetune_epochs` (`models.py` lines 237-239). -/
def resolvedFinetuneEpochs (D : Defaults) (c : Config) : Int :=
  c.num_finetune_epochs.getD D.DEFAULT_FINETUNE_EPOCHS

/-- One client manager: its config, loaders, optional client state path,
learning rate, split model, and the loader-backed dataset cardinalities. -/
structure ModelManager where
  client_id : Int
  config : Config
  trainloader : List Batch
  testloader : List Batch
  client_save_path : Option String
  learning_rate : Frac
  model : ModelSplit
  trainDatasetLen : Nat
  testDatasetLen : Nat
deriving DecidableEq

/-- The content of this clients state file: `none` when no file exists at the
path, `some sd` when a head state dict is persisted there. -/
abbrev FS := Option StateDict

/-- The conditional client-state load opening both `train` (`models.py` lines
183-185) and `test` (lines 233-235): when a path is configured and the file
exists, `self.model.head.load_state_dict(torch.load(path))`; otherwise the
call proceeds with the manager untouched. -/
def loadClientState (m : ModelManager) (fs : FS) : Except String ModelManager :=
  match m.client_save_path, fs with
  | some _, some sd =>
    match loadStateDict true m.model.head sd with
    | .ok h => .ok { m with model := { m.model with head := h } }
    | .error e => .error e
  | _, _ => .ok m

/-- The Python exception raised by `loss.item()` when `loss` is still the
initial float. -/
def itemErr : String := "AttributeError: float object has no attribute item"

/-- The Python exception raised by a division with zero denominator. -/
def divErr : String := "ZeroDivisionError: division by zero"

/-- The result of a successful `train` call: the updated manager, the state
file after the unconditional head save, the returned metrics, and the log of
the epoch toggle settings the loop ran under. -/
structure TrainOut where
  manager : ModelManager
  fsAfter : FS
  metrics : List (String × Frac)
  epochs : List EpochLog
deriving DecidableEq

/-- The body of `train` after the client-state load (`models.py` lines
187-224): resolve the epoch counts, create the criterion and the momentum-0.5
SGD optimizer once, run the two-phase epoch loop, save the head state dict
unconditionally when a path is configured, then build the metrics dict,
where `loss.item()` raises if no batch ever ran and `correct / total` raises
when `total` is zero. -/
def trainAfterLoad (D : Defaults) (O : Oracle) (m : ModelManager) (fs : FS) :
    Except String TrainOut :=
  let r := trainLoop O m.learning_rate m.trainloader
    (resolvedLocalEpochs D m.config) (resolvedRepEpochs D m.config) (initAcc m.model)
  let fs2 : FS := match m.client_save_path with
    | some _ => some (stateDictOf r.1.model.head)
    | none => fs
  match r.1.loss with
  | none => .error itemErr
  | some l =>
    if r.1.total = 0 then .error divErr
    else .ok
      { manager := { m with model := r.1.model },
        fsAfter := fs2,
        metrics := [("loss", l), ("accuracy", (Frac.ofNat r.1.correct).div (Frac.ofNat r.1.total))],
        epochs := r.2 }

/-- `ModelManager.train` (`models.py` lines 170-224): the conditional head
load followed by the two-phase training body. -/
def train (D : Defaults) (O : Oracle) (m : ModelManager) (fs : FS) : Except String TrainOut :=
  (loadClientState m fs).bind (fun m1 => trainAfterLoad D O m1 fs)

/-- One minibatch step of the fine-tuning loop of `test` (`models.py` lines
246-252), under the momentum-free SGD optimizer created there. -/
def finetuneBatch (O : Oracle) (lr : Frac) (acc : ModelSplit × OptState) (b : Batch) :
    ModelSplit × OptState :=
  sgdStepModel O lr (Frac.ofInt 0) b acc.1 acc.2

/-- The fine-tuning loop of `test` (`models.py` lines 241-252): a fresh
optimizer without momentum, `num_finetune_epochs` passes over the training
loader; which parameters move is still gated by the current
`requires_grad` flags, untouched by `test`. -/
def finetuneRun (O : Oracle) (lr : Frac) (loader : List Batch) (n : Nat) (m : ModelSplit) :
    ModelSplit :=
  ((List.range n).foldl (fun acc _ => loader.foldl (finetuneBatch O lr) acc) (m, ⟨[]⟩)).1

/-- The result of a successful `test` call. -/
structure TestOut where
  manager : ModelManager
  metrics : List (String × Frac)
deriving DecidableEq

/-- The body of `test` after the client-state load (`models.py` lines
237-269): optional fine-tuning when the resolved `num_finetune_epochs` is
positive, then a no-grad pass over the test loader accumulating the loss sum
and correct/total counters, then the metrics dict whose divisions by
`len(testloader.dataset)` and by `total` raise when the denominator is
zero. -/
def testAfterLoad (D : Defaults) (O : Oracle) (m : ModelManager) : Except String TestOut :=
  let nFine := resolvedFinetuneEpochs D m.config
  let model1 := if 0 < nFine then finetuneRun O m.learning_rate m.trainloader nFine.toNat m.model
    else m.model
  let r := m.testloader.foldl
    (fun (a : Frac × Nat × Nat) b =>
      ((a.1).add (O.lossOf model1 b), a.2.1 + b.labels.length, a.2.2 + O.correctOf model1 b))
    (Frac.ofInt 0, 0, 0)
  if m.testDatasetLen = 0 then .error divErr
  else if r.2.1 = 0 then .error divErr
  else .ok
    { manager := { m with model := model1 },
      metrics := [("loss", (r.1).div (Frac.ofNat m.testDatasetLen)),
        ("accuracy", (Frac.ofNat r.2.2).div (Frac.ofNat r.2.1))] }

/-- `ModelManager.test` (`models.py` lines 226-269): the conditional head load
followed by the fine-tune-then-evaluate body. -/
def test (D : Defaults) (O : Oracle) (m : ModelManager) (fs : FS) : Except String TestOut :=
  (loadClientState m fs).bind (fun m1 => testAfterLoad D O m1)

/-- `train_dataset_size` (`models.py` lines 271-273). -/
def train_dataset_size (m : ModelManager) : Nat := m.trainDatasetLen

/-- `test_dataset_size` (`models.py` lines 275-277). -/
def test_dataset_size (m : ModelManager) : Nat := m.testDatasetLen

/-- `total_dataset_size` (`models.py` lines 279-281). -/
def total_dataset_size (m : ModelManager) : Nat := m.trainDatasetLen + m.testDatasetLen

/-! Concrete fixtures used by the evaluation witnesses. -/

/-- A one-entry tensor holding an integer. -/
def tenOf (n : Int) : Tensor := ⟨[1], [Frac.ofInt n]⟩

/-- A one-parameter body. -/
def pw : Param := ⟨"w", tenOf 3, true⟩

/-- A one-parameter head. -/
def ph : Param := ⟨"h", tenOf 5, true⟩

/-- A tiny split model with one body and one head parameter. -/
def model0 : ModelSplit := ⟨[pw], [ph]⟩

/-- A numeric oracle with zero gradients, unit loss and one correct
prediction per batch. -/
def oracle0 : Oracle := ⟨fun _ _ => Frac.ofInt 1, fun _ _ _ => [Frac.ofInt 0], fun _ _ => 1⟩

/-- A one-example batch. -/
def batch0 : Batch := ⟨[[Frac.ofInt 1]], [0]⟩

/-- Concrete default epoch constants. -/
def defaults0 : Defaults := ⟨1, 1, 0⟩

/-- A config supplying one local epoch, one representation epoch and zero
fine-tune epochs. -/
def config0 : Config := ⟨"cpu", some 1, some 1, some 0⟩

/-- A concrete manager with a configured client state path. -/
def mgr0 : ModelManager :=
  ⟨0, config0, [batch0], [batch0], some "state.pth", Frac.ofInt 1, model0, 1, 1⟩

/-- The result of `train defaults0 oracle0 mgr0 none`: with zero gradients
the parameter values are untouched, the final toggle state is the
representation phase, and the head is persisted. -/
def out0 : TrainOut :=
  { manager := { mgr0 with model := ⟨[⟨"w", tenOf 3, true⟩], [⟨"h", tenOf 5, false⟩]⟩ },
    fsAfter := some [("h", tenOf 5)],
    metrics := [("loss", ⟨1, 1⟩), ("accuracy", ⟨2, 2⟩)],
    epochs := [headPhaseLog, repPhaseLog] }

/-! Helper lemmas about the optimizer step and the epoch loops. -/

/-- A parameter list whose flags are all disabled is untouched by
`backward` plus `step`, and so is the optimizer state. -/
theorem stepParams_frozen (lr mom : Frac) (tag : String → Key) (g : String → List Frac) :
    ∀ (ps : List Param) (o : OptState), (∀ p ∈ ps, p.requiresGrad = false) →
      stepParams lr mom tag g ps o = (ps, o)
  | [], o, _ => rfl
  | p :: ps, o, h => by
    have hp : p.requiresGrad = false := h p (by simp)
    have hrest := stepParams_frozen lr mom tag g ps o (fun q hq => h q (by simp [hq]))
    simp [stepParams, hp, hrest]

/-- `backward` plus `step` preserves the names of the parameters. -/
theorem stepParams_names (lr mom : Frac) (tag : String → Key) (g : String → List Frac) :
    ∀ (ps : List Param) (o : OptState),
      ((stepParams lr mom tag g ps o).1).map Param.name = ps.map Param.name
  | [], _ => rfl
  | p :: ps, o => by
    by_cases hp : p.requiresGrad
    · simp [stepParams, hp, sgdParamStep]
      constructor
      · by_cases hm : mom.isZero <;> simp [hm]
      · exact stepParams_names lr mom tag g ps _
    · simp [stepParams, hp]
      exact stepParams_names lr mom tag g ps o

/-- `setGradFlags` preserves names. -/
theorem setGradFlags_names (ps : List Param) (b : Bool) :
    (setGradFlags ps b).map Param.name = ps.map Param.name := by
  simp [setGradFlags]

/-- `setGradFlags` does not change the state dict: names and values are
untouched, only the flags move. -/
theorem setGradFlags_sd (ps : List Param) (b : Bool) :
    stateDictOf (setGradFlags ps b) = stateDictOf ps := by
  simp [setGradFlags, stateDictOf]

/-- Every flag after `setGradFlags ps b` is `b`. -/
theorem setGradFlags_flag (ps : List Param) (b : Bool) :
    ∀ p ∈ setGradFlags ps b, p.requiresGrad = b := by
  intro p hp
  simp only [setGradFlags, List.mem_map] at hp
  obtain ⟨q, _, rfl⟩ := hp
  rfl

/-- A batch step leaves a fully-frozen head untouched (value, name and flag).
-/
theorem trainBatchStep_head_frozen (O : Oracle) (lr mom : Frac) (s : TrainAcc) (b : Batch)
    (h : ∀ p ∈ s.model.head, p.requiresGrad = false) :
    (trainBatchStep O lr mom s b).model.head = s.model.head := by
  simp [trainBatchStep, sgdStepModel]
  rw [stepParams_frozen _ _ _ _ _ _ h]

/-- An epoch leaves a fully-frozen head untouched. -/
theorem runEpoch_head_frozen (O : Oracle) (lr mom : Frac) :
    ∀ (loader : List Batch) (s : TrainAcc), (∀ p ∈ s.model.head, p.requiresGrad = false) →
      (runEpoch O lr mom loader s).model.head = s.model.head
  | [], _, _ => rfl
  | b :: loader, s, h => by
    have h1 := trainBatchStep_head_frozen O lr mom s b h
    have h2 := runEpoch_head_frozen O lr mom loader (trainBatchStep O lr mom s b)
      (by rw [h1]; exact h)
    simpa [runEpoch, h1] using h2

/-- A representation-phase epoch does not change the head state dict. -/
theorem repEpoch_head_sd (O : Oracle) (lr : Frac) (loader : List Batch) (s : TrainAcc) :
    stateDictOf ((repEpoch O lr loader s).model.head) = stateDictOf s.model.head := by
  have h := runEpoch_head_frozen O lr halfMomentum loader
    { s with model := (s.model.enable_body).disable_head }
    (fun p hp => setGradFlags_flag s.model.head false p hp)
  simp only [repEpoch]
  rw [h]
  exact setGradFlags_sd s.model.head false

/-- Iterated representation-phase epochs do not change the head state dict. -/
theorem repEpoch_iterate_head_sd (O : Oracle) (lr : Frac) (loader : List Batch) :
    ∀ (n : Nat) (s : TrainAcc),
      stateDictOf (((repEpoch O lr loader)^[n] s).model.head) = stateDictOf s.model.head
  | 0, _ => rfl
  | n + 1, s => by
    rw [Function.iterate_succ_apply]
    rw [repEpoch_iterate_head_sd O lr loader n (repEpoch O lr loader s)]
    exact repEpoch_head_sd O lr loader s

/-! Lookup lemmas for name-keyed and key-keyed state dicts. -/

/-- In a dict built from a parameter list with distinct names, looking up a
member by its name finds its own entry. -/
theorem sdLookup_map_param (v : Param → Tensor) :
    ∀ (ps : List Param), (ps.map Param.name).Nodup → ∀ p ∈ ps,
      sdLookup (ps.map (fun q => (q.name, v q))) p.name = some (v p)
  | [], _, p, hp => absurd hp (by simp)
  | q :: ps, h, p, hp => by
    simp only [List.map_cons, List.nodup_cons] at h
    rcases List.mem_cons.mp hp with rfl | hmem
    · simp [sdLookup]
    · have hne : ¬ (q.name = p.name) := fun he => h.1 (by
        rw [he]; exact List.mem_map.mpr ⟨p, hmem, rfl⟩)
      simp only [List.map_cons, sdLookup]
      rw [if_neg hne]
      exact sdLookup_map_param v ps h.2 p hmem

/-- A binding found in the front dict survives appending a back dict. -/
theorem sdLookup_append_left :
    ∀ (a b : StateDict) (n : String) (t : Tensor),
      sdLookup a n = some t → sdLookup (a ++ b) n = some t
  | [], _, _, _, h => by simp [sdLookup] at h
  | kv :: a, b, n, t, h => by
    rw [List.cons_append]
    simp only [sdLookup] at h ⊢
    by_cases he : kv.1 = n
    · rw [if_pos he] at h ⊢
      exact h
    · rw [if_neg he] at h ⊢
      exact sdLookup_append_left a b n t h

/-- In a tagged dict built from a parameter list with distinct names by an
injective tag, looking up a member by its tagged name finds its own entry. -/
theorem fsdLookup_tagged (tag : String → Key) (hinj : ∀ a b, tag a = tag b → a = b)
    (v : Param → Tensor) :
    ∀ (ps : List Param), (ps.map Param.name).Nodup → ∀ p ∈ ps,
      fsdLookup (ps.map (fun q => (tag q.name, v q))) (tag p.name) = some (v p)
  | [], _, p, hp => absurd hp (by simp)
  | q :: ps, h, p, hp => by
    simp only [List.map_cons, List.nodup_cons] at h
    rcases List.mem_cons.mp hp with rfl | hmem
    · simp [fsdLookup]
    · have hne : ¬ (tag q.name = tag p.name) := fun he => h.1 (by
        rw [hinj _ _ he]; exact List.mem_map.mpr ⟨p, hmem, rfl⟩)
      simp only [List.map_cons, fsdLookup]
      rw [if_neg hne]
      exact fsdLookup_tagged tag hinj v ps h.2 p hmem

/-- A binding found in the front full dict survives appending a back dict. -/
theorem fsdLookup_append_left :
    ∀ (a b : FullSD) (k : Key) (t : Tensor),
      fsdLookup a k = some t → fsdLookup (a ++ b) k = some t
  | [], _, _, _, h => by simp [fsdLookup] at h
  | kv :: a, b, k, t, h => by
    rw [List.cons_append]
    simp only [fsdLookup] at h ⊢
    by_cases he : kv.1 = k
    · rw [if_pos he] at h ⊢
      exact h
    · rw [if_neg he] at h ⊢
      exact fsdLookup_append_left a b k t h

/-- Lookup skips a front dict none of whose keys is the requested one. -/
theorem fsdLookup_append_right :
    ∀ (a b : FullSD) (k : Key), (∀ kv ∈ a, kv.1 ≠ k) → fsdLookup (a ++ b) k = fsdLookup b k
  | [], _, _, _ => by simp
  | kv :: a, b, k, h => by
    rw [List.cons_append]
    simp only [fsdLookup]
    rw [if_neg (h kv (by simp))]
    exact fsdLookup_append_right a b k (fun x hx => h x (by simp [hx]))

/-! Lemmas about `loadStateDict`. -/

/-- When every parameter has a shape-compatible binding (described by `f`) in
the supplied dict, and in strict mode the dict has no foreign key, the load
succeeds and overwrites every parameter value with its binding. -/
theorem loadStateDict_ok_of_lookup (strict : Bool) (ps : List Param) (sd : StateDict)
    (f : Param → Tensor)
    (hv : ∀ p ∈ ps, sdLookup sd p.name = some (f p))
    (hshape : ∀ p ∈ ps, (f p).shape = p.value.shape)
    (hstrict : strict = true → ∀ kv ∈ sd, ∃ p ∈ ps, p.name = kv.1) :
    loadStateDict strict ps sd = .ok (ps.map (fun p => { p with value := f p })) := by
  simp only [loadStateDict]
  have hshapeBad : (ps.any fun p =>
      match sdLookup sd p.name with
      | some t => decide (t.shape ≠ p.value.shape)
      | none => false) = false := by
    rw [List.any_eq_false]
    intro p hp
    rw [hv p hp]
    simp [hshape p hp]
  rw [hshapeBad]
  have hcond : (strict && (!(ps.filter (fun p => (sdLookup sd p.name).isNone)).isEmpty
      || !(sd.filter (fun kv => !(ps.any (fun p => p.name = kv.1)))).isEmpty)) = false := by
    cases hs : strict with
    | false => rfl
    | true =>
      have hmiss : ps.filter (fun p => (sdLookup sd p.name).isNone) = [] := by
        rw [List.filter_eq_nil_iff]
        intro p hp
        rw [hv p hp]
        simp
      have hunex : sd.filter (fun kv => !(ps.any (fun p => p.name = kv.1))) = [] := by
        rw [List.filter_eq_nil_iff]
        intro kv hkv
        obtain ⟨p, hp, hname⟩ := hstrict hs kv hkv
        simp [List.any_eq_true]
        exact ⟨p, hp, hname⟩
      rw [hmiss, hunex]
      rfl
  rw [hcond]
  simp only [Bool.false_eq_true, if_false]
  congr 1
  apply List.map_congr_left
  intro p hp
  rw [hv p hp]

/-- Loading the own state dict of a parameter list with distinct names is the
identity, in both strict and permissive mode. -/
theorem loadStateDict_self (strict : Bool) (ps : List Param)
    (hn : (ps.map Param.name).Nodup) :
    loadStateDict strict ps (stateDictOf ps) = .ok ps := by
  have h := loadStateDict_ok_of_lookup strict ps (stateDictOf ps) Param.value
    (fun p hp => sdLookup_map_param Param.value ps hn p hp)
    (fun _ _ => rfl)
    (fun _ kv hkv => by
      simp only [stateDictOf, List.mem_map] at hkv
      obtain ⟨p, hp, rfl⟩ := hkv
      exact ⟨p, hp, rfl⟩)
  rw [h]
  exact congrArg Except.ok (List.map_id ps)

/-! Decomposition of the `train` epoch loop into its two phases. -/

/-- The first `a` iterations of the epoch loop, while `a` does not exceed
`num_local_epochs`, are head-phase epochs. -/
theorem foldl_head_part (O : Oracle) (lr : Frac) (L : List Batch) (nLocal : Int) :
    ∀ (a : Nat), ((a : Int) ≤ nLocal) → ∀ (s : TrainAcc) (log : List EpochLog),
      (List.range a).foldl (trainEpochIter O lr L nLocal) (s, log)
        = ((headEpoch O lr L)^[a] s, log ++ List.replicate a headPhaseLog)
  | 0, _, s, log => by simp
  | a + 1, h, s, log => by
    have ha : ((a : Int)) ≤ nLocal := by push_cast at h ⊢; omega
    have hlt : ((a : Int)) < nLocal := by push_cast at h ⊢; omega
    rw [List.range_succ, List.foldl_append]
    rw [foldl_head_part O lr L nLocal a ha s log]
    simp only [List.foldl_cons, List.foldl_nil, trainEpochIter, if_pos hlt]
    rw [Function.iterate_succ_apply' (headEpoch O lr L) a s]
    rw [List.replicate_succ' a headPhaseLog, ← List.append_assoc]

/-- The iterations of the epoch loop with index at least `num_local_epochs`
are representation-phase epochs. -/
theorem foldl_rep_part (O : Oracle) (lr : Frac) (L : List Batch) (nLocal : Int)
    (hL : 0 ≤ nLocal) :
    ∀ (b : Nat) (s : TrainAcc) (log : List EpochLog),
      ((List.range b).map (fun j => nLocal.toNat + j)).foldl
          (trainEpochIter O lr L nLocal) (s, log)
        = ((repEpoch O lr L)^[b] s, log ++ List.replicate b repPhaseLog)
  | 0, s, log => by simp
  | b + 1, s, log => by
    have hge : ¬ (((nLocal.toNat + b : Nat) : Int) < nLocal) := by
      rw [← Int.toNat_of_nonneg hL]
      push_cast
      omega
    rw [List.range_succ, List.map_append, List.foldl_append]
    rw [foldl_rep_part O lr L nLocal hL b s log]
    simp only [List.map_cons, List.map_nil, List.foldl_cons, List.foldl_nil,
      trainEpochIter, if_neg hge]
    rw [Function.iterate_succ_apply' (repEpoch O lr L) b s]
    rw [List.replicate_succ' b repPhaseLog, ← List.append_assoc]

/-- With nonnegative epoch counts the epoch loop of `train` is exactly
`num_local_epochs` head-phase epochs followed by `num_rep_epochs`
representation-phase epochs, the second phase starting from the full
accumulator state (model, optimizer buffers, counters) the first phase
ended in. -/
theorem trainLoop_eq (O : Oracle) (lr : Frac) (L : List Batch) (nLocal nRep : Int)
    (hL : 0 ≤ nLocal) (hR : 0 ≤ nRep) (s0 : TrainAcc) :
    trainLoop O lr L nLocal nRep s0
      = ((repEpoch O lr L)^[nRep.toNat] ((headEpoch O lr L)^[nLocal.toNat] s0),
         List.replicate nLocal.toNat headPhaseLog
           ++ List.replicate nRep.toNat repPhaseLog) := by
  unfold trainLoop
  rw [Int.toNat_add hL hR, List.range_add, List.foldl_append]
  rw [foldl_head_part O lr L nLocal nLocal.toNat (by rw [Int.toNat_of_nonneg hL]) s0 []]
  rw [foldl_rep_part O lr L nLocal hL nRep.toNat _ _]
  rw [List.nil_append]

/-! Name preservation through training. -/

/-- A batch step preserves the head parameter names. -/
theorem trainBatchStep_head_names (O : Oracle) (lr mom : Frac) (s : TrainAcc) (b : Batch) :
    (trainBatchStep O lr mom s b).model.head.map Param.name
      = s.model.head.map Param.name := by
  simp only [trainBatchStep, sgdStepModel]
  exact stepParams_names lr mom Key.head _ s.model.head _

/-- An epoch preserves the head parameter names. -/
theorem runEpoch_head_names (O : Oracle) (lr mom : Frac) :
    ∀ (loader : List Batch) (s : TrainAcc),
      (runEpoch O lr mom loader s).model.head.map Param.name
        = s.model.head.map Param.name
  | [], _ => rfl
  | b :: loader, s => by
    have h1 := trainBatchStep_head_names O lr mom s b
    have h2 := runEpoch_head_names O lr mom loader (trainBatchStep O lr mom s b)
    simp only [runEpoch, List.foldl_cons] at h2 ⊢
    rw [h2, h1]

/-- Any prefix of the epoch loop preserves the head parameter names. -/
theorem foldl_epochs_head_names (O : Oracle) (lr : Frac) (L : List Batch) (nLocal : Int) :
    ∀ (l : List Nat) (acc : TrainAcc × List EpochLog),
      ((l.foldl (trainEpochIter O lr L nLocal) acc).1).model.head.map Param.name
        = acc.1.model.head.map Param.name
  | [], _ => rfl
  | i :: l, acc => by
    rw [List.foldl_cons]
    rw [foldl_epochs_head_names O lr L nLocal l (trainEpochIter O lr L nLocal acc i)]
    unfold trainEpochIter
    by_cases hi : ((i : Int)) < nLocal
    · rw [if_pos hi]
      show (headEpoch O lr L acc.1).model.head.map Param.name
        = acc.1.model.head.map Param.name
      rw [headEpoch, runEpoch_head_names O lr halfMomentum L _]
      exact setGradFlags_names acc.1.model.head true
    · rw [if_neg hi]
      show (repEpoch O lr L acc.1).model.head.map Param.name
        = acc.1.model.head.map Param.name
      rw [repEpoch, runEpoch_head_names O lr halfMomentum L _]
      exact setGradFlags_names acc.1.model.head false

/-- The whole epoch loop preserves the head parameter names. -/
theorem trainLoop_head_names (O : Oracle) (lr : Frac) (L : List Batch) (nLocal nRep : Int)
    (s0 : TrainAcc) :
    ((trainLoop O lr L nLocal nRep s0).1).model.head.map Param.name
      = s0.model.head.map Param.name :=
  foldl_epochs_head_names O lr L nLocal _ _

/-- A successful `loadStateDict` preserves the parameter names. -/
theorem loadStateDict_names (strict : Bool) (ps qs : List Param) (sd : StateDict)
    (h : loadStateDict strict ps sd = .ok qs) :
    qs.map Param.name = ps.map Param.name := by
  simp only [loadStateDict] at h
  split at h
  · exact absurd h (by simp)
  · split at h
    · exact absurd h (by simp)
    · injection h with h
      subst h
      rw [List.map_map]
      apply List.map_congr_left
      intro p _
      simp only [Function.comp]
      cases hx : sdLookup sd p.name <;> simp [hx]

/-! Extraction lemmas for the manager procedures. -/

/-- A successful client-state load changes at most the model. -/
theorem loadClientState_ok (m mL : ModelManager) (fs : FS)
    (h : loadClientState m fs = .ok mL) :
    mL = { m with model := mL.model } := by
  unfold loadClientState at h
  split at h
  · split at h
    · injection h with h
      subst h
      rfl
    · exact absurd h (by simp)
  · injection h with h
    subst h
    rfl

/-- A successful client-state load preserves the head parameter names. -/
theorem loadClientState_head_names (m mL : ModelManager) (fs : FS)
    (h : loadClientState m fs = .ok mL) :
    mL.model.head.map Param.name = m.model.head.map Param.name := by
  unfold loadClientState at h
  split at h
  · rename_i sd hload
    split at h
    · rename_i hd hok
      injection h with h
      subst h
      exact loadStateDict_names true m.model.head hd _ hok
    · exact absurd h (by simp)
  · injection h with h
    subst h
    rfl

/-- Reloading the own persisted head state of a manager is the identity. -/
theorem loadClientState_self (mm : ModelManager) (pp : String)
    (hp : mm.client_save_path = some pp)
    (hn : (mm.model.head.map Param.name).Nodup) :
    loadClientState mm (some (stateDictOf mm.model.head)) = .ok mm := by
  rcases mm with ⟨cid, cfg, tl, tsl, csp, lrr, mdl, tdl, tsdl⟩
  simp only at hp
  subst hp
  rcases mdl with ⟨bd, hd⟩
  simp only at hn
  unfold loadClientState
  simp only []
  rw [loadStateDict_self true hd hn]

/-- With no configured path or no existing state file, the client-state load
is skipped and the manager is untouched. -/
theorem loadClientState_skip (m : ModelManager) (fs : FS)
    (hc : m.client_save_path = none ∨ fs = none) :
    loadClientState m fs = .ok m := by
  rcases hc with hc | hc
  · cases fs <;> simp [loadClientState, hc]
  · subst hc
    rcases hp : m.client_save_path with _ | p <;> simp [loadClientState, hp]

/-- On an empty training loader, the epoch loop never assigns the `loss`
variable. -/
theorem foldl_epochs_loss_nil (O : Oracle) (lr : Frac) (nLocal : Int) :
    ∀ (l : List Nat) (acc : TrainAcc × List EpochLog),
      ((l.foldl (trainEpochIter O lr [] nLocal) acc).1).loss = acc.1.loss
  | [], _ => rfl
  | i :: l, acc => by
    rw [List.foldl_cons, foldl_epochs_loss_nil O lr nLocal l _]
    unfold trainEpochIter
    by_cases hi : ((i : Int)) < nLocal
    · rw [if_pos hi]
      rfl
    · rw [if_neg hi]
      rfl

/-- Shape of a successful `trainAfterLoad` result. -/
theorem trainAfterLoad_ok (D : Defaults) (O : Oracle) (m : ModelManager) (fs : FS)
    (out : TrainOut) (h : trainAfterLoad D O m fs = .ok out) :
    out.manager = { m with model := (trainLoop O m.learning_rate m.trainloader
        (resolvedLocalEpochs D m.config) (resolvedRepEpochs D m.config)
        (initAcc m.model)).1.model }
    ∧ out.epochs = (trainLoop O m.learning_rate m.trainloader
        (resolvedLocalEpochs D m.config) (resolvedRepEpochs D m.config)
        (initAcc m.model)).2
    ∧ out.fsAfter = (match m.client_save_path with
        | some _ => some (stateDictOf (trainLoop O m.learning_rate m.trainloader
            (resolvedLocalEpochs D m.config) (resolvedRepEpochs D m.config)
            (initAcc m.model)).1.model.head)
        | none => fs) := by
  simp only [trainAfterLoad] at h
  split at h
  · exact absurd h (by simp)
  · split at h
    · exact absurd h (by simp)
    · injection h with h
      subst h
      exact ⟨rfl, rfl, rfl⟩

/-! Lemmas about `set_parameters` and the strict setters. -/

/-- One update step rewrites an entry to its binding in the supplied mapping
when there is one. -/
theorem updByK_eq (sd : FullSD) (kv : Key × Tensor) :
    updByK sd kv = (kv.1, (fsdLookup sd kv.1).getD kv.2) := by
  unfold updByK
  cases fsdLookup sd kv.1 <;> rfl

/-- Projecting the body entries out of a body-tagged list strips the tag. -/
theorem filterMap_projBody_bodyTagged (v : Param → Tensor) :
    ∀ (ps : List Param),
      (ps.map (fun p => (Key.body p.name, v p))).filterMap projBody
        = ps.map (fun p => (p.name, v p))
  | [] => rfl
  | p :: ps => by
    simp only [List.map_cons, List.filterMap_cons, projBody]
    rw [filterMap_projBody_bodyTagged v ps]

/-- Projecting the body entries out of a head-tagged list yields nothing. -/
theorem filterMap_projBody_headTagged (v : Param → Tensor) :
    ∀ (ps : List Param),
      (ps.map (fun p => (Key.head p.name, v p))).filterMap projBody = []
  | [] => rfl
  | p :: ps => by
    simp only [List.map_cons, List.filterMap_cons, projBody]
    exact filterMap_projBody_headTagged v ps

/-- Projecting the head entries out of a head-tagged list strips the tag. -/
theorem filterMap_projHead_headTagged (v : Param → Tensor) :
    ∀ (ps : List Param),
      (ps.map (fun p => (Key.head p.name, v p))).filterMap projHead
        = ps.map (fun p => (p.name, v p))
  | [] => rfl
  | p :: ps => by
    simp only [List.map_cons, List.filterMap_cons, projHead]
    rw [filterMap_projHead_headTagged v ps]

/-- Projecting the head entries out of a body-tagged list yields nothing. -/
theorem filterMap_projHead_bodyTagged (v : Param → Tensor) :
    ∀ (ps : List Param),
      (ps.map (fun p => (Key.body p.name, v p))).filterMap projHead = []
  | [] => rfl
  | p :: ps => by
    simp only [List.map_cons, List.filterMap_cons, projHead]
    exact filterMap_projHead_bodyTagged v ps

/-- The body entries of the updated full state dict: the body parameters with
their merged values, followed by whatever body-tagged foreign entries the
input appended. -/
theorem orderedOf_projBody (m : ModelSplit) (sd : FullSD) :
    (orderedOf m sd).filterMap projBody
      = m.body.map (fun p => (p.name, (fsdLookup sd (Key.body p.name)).getD p.value))
        ++ (sd.filter (fun kv =>
            !((fullStateDict m).any (fun kv2 => kv2.1 = kv.1)))).filterMap projBody := by
  unfold orderedOf fullStateDict
  rw [List.map_append, List.filterMap_append, List.filterMap_append]
  congr 1
  rw [List.map_map, List.map_map]
  have hb : m.body.map (updByK sd ∘ fun p => (Key.body p.name, p.value))
      = m.body.map (fun p => (Key.body p.name, (fsdLookup sd (Key.body p.name)).getD p.value)) := by
    apply List.map_congr_left
    intro p _
    rw [Function.comp_apply, updByK_eq]
  have hh : m.head.map (updByK sd ∘ fun p => (Key.head p.name, p.value))
      = m.head.map (fun p => (Key.head p.name, (fsdLookup sd (Key.head p.name)).getD p.value)) := by
    apply List.map_congr_left
    intro p _
    rw [Function.comp_apply, updByK_eq]
  rw [hb, hh, filterMap_projBody_bodyTagged, filterMap_projBody_headTagged, List.append_nil]

/-- The head entries of the updated full state dict. -/
theorem orderedOf_projHead (m : ModelSplit) (sd : FullSD) :
    (orderedOf m sd).filterMap projHead
      = m.head.map (fun p => (p.name, (fsdLookup sd (Key.head p.name)).getD p.value))
        ++ (sd.filter (fun kv =>
            !((fullStateDict m).any (fun kv2 => kv2.1 = kv.1)))).filterMap projHead := by
  unfold orderedOf fullStateDict
  rw [List.map_append, List.filterMap_append, List.filterMap_append]
  congr 1
  rw [List.map_map, List.map_map]
  have hb : m.body.map (updByK sd ∘ fun p => (Key.body p.name, p.value))
      = m.body.map (fun p => (Key.body p.name, (fsdLookup sd (Key.body p.name)).getD p.value)) := by
    apply List.map_congr_left
    intro p _
    rw [Function.comp_apply, updByK_eq]
  have hh : m.head.map (updByK sd ∘ fun p => (Key.head p.name, p.value))
      = m.head.map (fun p => (Key.head p.name, (fsdLookup sd (Key.head p.name)).getD p.value)) := by
    apply List.map_congr_left
    intro p _
    rw [Function.comp_apply, updByK_eq]
  rw [hb, hh, filterMap_projHead_headTagged, filterMap_projHead_bodyTagged, List.nil_append]

/-- The permissive merge of `set_parameters`, in closed form: matched keys
are overwritten, unmatched parameters keep their values, foreign keys are
ignored, and nothing is rejected (given per-key shape compatibility). -/
theorem set_parameters_merge (m : ModelSplit) (sd : FullSD)
    (hb : (m.body.map Param.name).Nodup) (hh : (m.head.map Param.name).Nodup)
    (hsb : ∀ p ∈ m.body, ∀ t, fsdLookup sd (Key.body p.name) = some t
      → t.shape = p.value.shape)
    (hsh : ∀ p ∈ m.head, ∀ t, fsdLookup sd (Key.head p.name) = some t
      → t.shape = p.value.shape) :
    m.set_parameters sd = .ok
      { body := m.body.map (fun p =>
          { p with value := (fsdLookup sd (Key.body p.name)).getD p.value }),
        head := m.head.map (fun p =>
          { p with value := (fsdLookup sd (Key.head p.name)).getD p.value }) } := by
  have hvb : ∀ p ∈ m.body, sdLookup ((orderedOf m sd).filterMap projBody) p.name
      = some ((fsdLookup sd (Key.body p.name)).getD p.value) := by
    intro p hp
    rw [orderedOf_projBody]
    exact sdLookup_append_left _ _ _ _
      (sdLookup_map_param (fun q => (fsdLookup sd (Key.body q.name)).getD q.value) m.body hb p hp)
  have hvh : ∀ p ∈ m.head, sdLookup ((orderedOf m sd).filterMap projHead) p.name
      = some ((fsdLookup sd (Key.head p.name)).getD p.value) := by
    intro p hp
    rw [orderedOf_projHead]
    exact sdLookup_append_left _ _ _ _
      (sdLookup_map_param (fun q => (fsdLookup sd (Key.head q.name)).getD q.value) m.head hh p hp)
  have hshb : ∀ p ∈ m.body, ((fsdLookup sd (Key.body p.name)).getD p.value).shape
      = p.value.shape := by
    intro p hp
    cases hx : fsdLookup sd (Key.body p.name) with
    | none => rfl
    | some t =>
      simp only [Option.getD_some]
      exact hsb p hp t hx
  have hshh : ∀ p ∈ m.head, ((fsdLookup sd (Key.head p.name)).getD p.value).shape
      = p.value.shape := by
    intro p hp
    cases hx : fsdLookup sd (Key.head p.name) with
    | none => rfl
    | some t =>
      simp only [Option.getD_some]
      exact hsh p hp t hx
  have hbody := loadStateDict_ok_of_lookup false m.body ((orderedOf m sd).filterMap projBody)
    (fun p => (fsdLookup sd (Key.body p.name)).getD p.value) hvb hshb
    (fun hco => absurd hco Bool.false_ne_true)
  have hhead := loadStateDict_ok_of_lookup false m.head ((orderedOf m sd).filterMap projHead)
    (fun p => (fsdLookup sd (Key.head p.name)).getD p.value) hvh hshh
    (fun hco => absurd hco Bool.false_ne_true)
  unfold ModelSplit.set_parameters
  rw [hbody, hhead]

/-- A strict load with a missing key raises. -/
theorem loadStateDict_error_missing (ps : List Param) (sd : StateDict)
    (hmiss : ∃ p ∈ ps, sdLookup sd p.name = none) :
    ∃ e, loadStateDict true ps sd = .error e := by
  simp only [loadStateDict]
  split
  · exact ⟨_, rfl⟩
  · split
    · exact ⟨_, rfl⟩
    · exfalso
      rename_i hcond
      obtain ⟨p, hp, hnone⟩ := hmiss
      have hmem : p ∈ ps.filter (fun p => (sdLookup sd p.name).isNone) :=
        List.mem_filter.mpr ⟨hp, by simp [hnone]⟩
      cases hfe : (ps.filter (fun p => (sdLookup sd p.name).isNone)).isEmpty with
      | true =>
        rw [List.isEmpty_iff.mp hfe] at hmem
        exact absurd hmem (List.not_mem_nil p)
      | false =>
        exact hcond (by simp [hfe])

/-- A strict load with an unknown key raises. -/
theorem loadStateDict_error_unexpected (ps : List Param) (sd : StateDict)
    (hunex : ∃ kv ∈ sd, ∀ p ∈ ps, p.name ≠ kv.1) :
    ∃ e, loadStateDict true ps sd = .error e := by
  simp only [loadStateDict]
  split
  · exact ⟨_, rfl⟩
  · split
    · exact ⟨_, rfl⟩
    · exfalso
      rename_i hcond
      obtain ⟨kv, hkv, hall⟩ := hunex
      have hany : (ps.any (fun p => p.name = kv.1)) = false := by
        rw [List.any_eq_false]
        intro p hp
        simp [hall p hp]
      have hmem : kv ∈ sd.filter (fun kv => !(ps.any (fun p => p.name = kv.1))) :=
        List.mem_filter.mpr ⟨hkv, by simp [hany]⟩
      cases hfe : (sd.filter (fun kv => !(ps.any (fun p => p.name = kv.1)))).isEmpty with
      | true =>
        rw [List.isEmpty_iff.mp hfe] at hmem
        exact absurd hmem (List.not_mem_nil kv)
      | false =>
        exact hcond (by simp [hfe])

/-! The claim theorems. -/

/-- Claim C1: a successful `train()` runs exactly the resolved
`num_local_epochs` head-phase epochs (body gradients disabled, head enabled)
followed by the resolved `num_rep_epochs` representation-phase epochs (body
enabled, head disabled) — the epoch log — and every step runs over the same
training loader under the single momentum-0.5 SGD optimizer created before
phase A: the result equals the representation phase iterated on the full
accumulator (model, optimizer buffers, counters) left by the head phase,
with no optimizer reset in between. -/
theorem claim1_train_two_phase (D : Defaults) (O : Oracle) (m mL : ModelManager) (fs : FS)
    (out : TrainOut)
    (hload : loadClientState m fs = .ok mL)
    (hL : 0 ≤ resolvedLocalEpochs D mL.config)
    (hR : 0 ≤ resolvedRepEpochs D mL.config)
    (h : train D O m fs = .ok out) :
    out.epochs = List.replicate (resolvedLocalEpochs D mL.config).toNat headPhaseLog
        ++ List.replicate (resolvedRepEpochs D mL.config).toNat repPhaseLog
    ∧ out.manager.model
        = ((repEpoch O mL.learning_rate mL.trainloader)^[(resolvedRepEpochs D mL.config).toNat]
            ((headEpoch O mL.learning_rate mL.trainloader)^[(resolvedLocalEpochs D mL.config).toNat]
              (initAcc mL.model))).model := by
  rw [train, hload] at h
  simp only [Except.bind] at h
  obtain ⟨h1, h2, _⟩ := trainAfterLoad_ok D O mL fs out h
  rw [trainLoop_eq _ _ _ _ _ hL hR] at h1 h2
  constructor
  · rw [h2]
  · rw [h1]

/-- Witness for C1 at a concrete manager: one local epoch, one
representation epoch. -/
theorem claim1_witness :
    out0.epochs = List.replicate (resolvedLocalEpochs defaults0 mgr0.config).toNat headPhaseLog
        ++ List.replicate (resolvedRepEpochs defaults0 mgr0.config).toNat repPhaseLog
    ∧ out0.manager.model
        = ((repEpoch oracle0 mgr0.learning_rate mgr0.trainloader)^[(resolvedRepEpochs defaults0 mgr0.config).toNat]
            ((headEpoch oracle0 mgr0.learning_rate mgr0.trainloader)^[(resolvedLocalEpochs defaults0 mgr0.config).toNat]
              (initAcc mgr0.model))).model :=
  claim1_train_two_phase defaults0 oracle0 mgr0 mgr0 none out0
    (by decide) (by decide) (by decide) (by decide)

/-- Claim C2: during the representation phase of `train()` the head is not
touched: the head state dict of the returned model equals the head state dict
at the end of the head phase, whatever the model, loader and (nonnegative)
phase-B epoch count. -/
theorem claim2_repphase_head_unchanged (D : Defaults) (O : Oracle) (m mL : ModelManager)
    (fs : FS) (out : TrainOut)
    (hload : loadClientState m fs = .ok mL)
    (hL : 0 ≤ resolvedLocalEpochs D mL.config)
    (hR : 0 ≤ resolvedRepEpochs D mL.config)
    (h : train D O m fs = .ok out) :
    stateDictOf out.manager.model.head
      = stateDictOf (((headEpoch O mL.learning_rate mL.trainloader)^[(resolvedLocalEpochs D mL.config).toNat]
          (initAcc mL.model)).model.head) := by
  rw [train, hload] at h
  simp only [Except.bind] at h
  obtain ⟨h1, _, _⟩ := trainAfterLoad_ok D O mL fs out h
  rw [trainLoop_eq _ _ _ _ _ hL hR] at h1
  rw [h1]
  exact repEpoch_iterate_head_sd O mL.learning_rate mL.trainloader _ _

/-- Witness for C2 at a concrete manager. -/
theorem claim2_witness :
    stateDictOf out0.manager.model.head
      = stateDictOf (((headEpoch oracle0 mgr0.learning_rate mgr0.trainloader)^[(resolvedLocalEpochs defaults0 mgr0.config).toNat]
          (initAcc mgr0.model)).model.head) :=
  claim2_repphase_head_unchanged defaults0 oracle0 mgr0 mgr0 none out0
    (by decide) (by decide) (by decide) (by decide)

/-- Claim C3: with a configured client state path, a successful `train()`
writes the post-training head state dict to the state file, and the client
state load that opens the next `train()` call (before its phase A) loads
exactly that persisted state into the head — reloading it is the identity on
the returned manager. -/
theorem claim3_persist_roundtrip (D : Defaults) (O : Oracle) (m : ModelManager) (fs : FS)
    (p : String) (out : TrainOut)
    (hp : m.client_save_path = some p)
    (hn : (m.model.head.map Param.name).Nodup)
    (h : train D O m fs = .ok out) :
    out.fsAfter = some (stateDictOf out.manager.model.head)
    ∧ loadClientState out.manager out.fsAfter = .ok out.manager := by
  cases hload : loadClientState m fs with
  | error e =>
    rw [train, hload] at h
    exact absurd h (by simp [Except.bind])
  | ok mL =>
    rw [train, hload] at h
    simp only [Except.bind] at h
    obtain ⟨h1, _, h3⟩ := trainAfterLoad_ok D O mL fs out h
    have hmL := loadClientState_ok m mL fs hload
    have hpath : mL.client_save_path = some p := by rw [hmL]; exact hp
    simp only [hpath] at h3
    have hfs : out.fsAfter = some (stateDictOf out.manager.model.head) := by
      rw [h3, h1]
    refine ⟨hfs, ?_⟩
    have hpath2 : out.manager.client_save_path = some p := by rw [h1]; exact hpath
    have hnames : out.manager.model.head.map Param.name = m.model.head.map Param.name := by
      rw [h1]
      show ((trainLoop O mL.learning_rate mL.trainloader (resolvedLocalEpochs D mL.config)
        (resolvedRepEpochs D mL.config) (initAcc mL.model)).1).model.head.map Param.name
        = m.model.head.map Param.name
      rw [trainLoop_head_names]
      exact loadClientState_head_names m mL fs hload
    have hn2 : (out.manager.model.head.map Param.name).Nodup := by
      rw [hnames]; exact hn
    rw [hfs]
    exact loadClientState_self out.manager p hpath2 hn2

/-- Witness for C3 at a concrete manager with a configured path. -/
theorem claim3_witness :
    out0.fsAfter = some (stateDictOf out0.manager.model.head)
    ∧ loadClientState out0.manager out0.fsAfter = .ok out0.manager :=
  claim3_persist_roundtrip defaults0 oracle0 mgr0 none "state.pth" out0
    (by decide) (by decide) (by decide)

/-- Claim C9: both `train()` and `test()` begin with the conditional client
state load; a missing state file (or missing path) is silently skipped and is
never an error, and an existing file is loaded into the head, overwriting the
in-memory head. -/
theorem claim9_state_load (D : Defaults) (O : Oracle) (m : ModelManager) (fs : FS) :
    (loadClientState m none = .ok m)
    ∧ (m.client_save_path = none → loadClientState m fs = .ok m)
    ∧ (∀ (p : String) (sd : StateDict) (hd : List Param),
        m.client_save_path = some p →
        loadStateDict true m.model.head sd = .ok hd →
        loadClientState m (some sd) = .ok { m with model := { m.model with head := hd } })
    ∧ train D O m fs = (loadClientState m fs).bind (fun m1 => trainAfterLoad D O m1 fs)
    ∧ test D O m fs = (loadClientState m fs).bind (fun m1 => testAfterLoad D O m1) := by
  refine ⟨loadClientState_skip m none (Or.inr rfl),
    fun hc => loadClientState_skip m fs (Or.inl hc), ?_, rfl, rfl⟩
  intro p sd hd hc hok
  simp [loadClientState, hc, hok]

/-- Witness for C9: loading a concrete persisted head overwrites the
in-memory head. -/
theorem claim9_witness :
    loadClientState mgr0 (some [("h", tenOf 7)])
      = .ok { mgr0 with model := { mgr0.model with head := [⟨"h", tenOf 7, true⟩] } } :=
  (claim9_state_load defaults0 oracle0 mgr0 (some [("h", tenOf 7)])).2.2.1
    "state.pth" [("h", tenOf 7)] [⟨"h", tenOf 7, true⟩] (by decide) (by decide)

/-- Claim C10: when the training loader yields no batch, or both resolved
epoch counts are zero, `train()` does not return metrics: the `loss`
variable is still the initial Python float and `loss.item()` raises. -/
theorem claim10_train_no_batch_fails (D : Defaults) (O : Oracle) (m mL : ModelManager)
    (fs : FS)
    (hload : loadClientState m fs = .ok mL)
    (hempty : mL.trainloader = []
      ∨ (resolvedLocalEpochs D mL.config = 0 ∧ resolvedRepEpochs D mL.config = 0)) :
    train D O m fs = .error itemErr := by
  rw [train, hload]
  simp only [Except.bind]
  have hloss : (trainLoop O mL.learning_rate mL.trainloader (resolvedLocalEpochs D mL.config)
      (resolvedRepEpochs D mL.config) (initAcc mL.model)).1.loss = none := by
    rcases hempty with hnil | ⟨hz1, hz2⟩
    · rw [hnil]
      unfold trainLoop
      rw [foldl_epochs_loss_nil O mL.learning_rate (resolvedLocalEpochs D mL.config) _ _]
      rfl
    · rw [hz1, hz2]
      rfl
  simp only [trainAfterLoad]
  rw [hloss]

/-- Witness for C10: an empty training loader makes `train()` raise. -/
theorem claim10_witness :
    train defaults0 oracle0 { mgr0 with trainloader := [] } none = .error itemErr :=
  claim10_train_no_batch_fails defaults0 oracle0
    { mgr0 with trainloader := [] } { mgr0 with trainloader := [] } none
    (by decide) (Or.inl rfl)

/-- Counterexample to C4 as stated: on a manager whose test loader and test
dataset are empty, `test()` does raise a division error rather than being
guarded. -/
theorem claim4_counterexample :
    test defaults0 oracle0
        { mgr0 with testloader := [], testDatasetLen := 0, client_save_path := none } none
      = .error divErr := by decide

/-- Claim C4 (amended): on a manager whose test loader and test dataset are
empty, `test()` raises a division error — the zero denominators are not
guarded. -/
theorem claim4_empty_test_division (D : Defaults) (O : Oracle) (m mL : ModelManager)
    (fs : FS)
    (hload : loadClientState m fs = .ok mL)
    (hloader : m.testloader = [])
    (hlen : m.testDatasetLen = 0) :
    test D O m fs = .error divErr := by
  rw [test, hload]
  simp only [Except.bind]
  have hmL := loadClientState_ok m mL fs hload
  have hlen2 : mL.testDatasetLen = 0 := by rw [hmL]; exact hlen
  simp only [testAfterLoad]
  rw [hlen2]
  rfl

/-- Witness for the amended C4. -/
theorem claim4_witness :
    test defaults0 oracle0
        { mgr0 with testloader := [], testDatasetLen := 0, client_save_path := some "s" } none
      = .error divErr :=
  claim4_empty_test_division defaults0 oracle0
    { mgr0 with testloader := [], testDatasetLen := 0, client_save_path := some "s" }
    { mgr0 with testloader := [], testDatasetLen := 0, client_save_path := some "s" }
    none (by decide) rfl rfl

/-- Counterexample to C5 as stated: with zero fine-tune epochs but a
persisted head state present, `test()` does mutate the head (the initial
state load overwrites it). -/
theorem claim5_counterexample :
    (test defaults0 oracle0 mgr0 (some [("h", tenOf 7)])).map
        (fun r => stateDictOf r.manager.model.head) = .ok [("h", tenOf 7)]
    ∧ stateDictOf mgr0.model.head = [("h", tenOf 5)]
    ∧ tenOf 7 ≠ tenOf 5 := by decide

/-- Claim C5 (amended): with zero resolved fine-tune epochs, `test()`
changes no model parameter beyond the initial persisted-head load: the
returned manager equals the manager right after that load, and when no path
is configured or no state file exists, it equals the input manager
unchanged. -/
theorem claim5_nofinetune_frame (D : Defaults) (O : Oracle) (m mL : ModelManager)
    (fs : FS) (out : TestOut)
    (hfin : resolvedFinetuneEpochs D m.config = 0)
    (hload : loadClientState m fs = .ok mL)
    (h : test D O m fs = .ok out) :
    out.manager = mL
    ∧ ((m.client_save_path = none ∨ fs = none) → out.manager = m) := by
  rw [test, hload] at h
  simp only [Except.bind] at h
  have hmL := loadClientState_ok m mL fs hload
  have hfin2 : resolvedFinetuneEpochs D mL.config = 0 := by rw [hmL]; exact hfin
  simp only [testAfterLoad] at h
  rw [hfin2, if_neg (lt_irrefl (0 : Int))] at h
  have hout : out.manager = mL := by
    split at h
    · exact absurd h (by simp)
    · split at h
      · exact absurd h (by simp)
      · injection h with h
        subst h
        rfl
  refine ⟨hout, fun hc => ?_⟩
  have hskip := loadClientState_skip m fs hc
  rw [hskip] at hload
  injection hload with hload
  rw [hout, ← hload]

/-- Witness for the amended C5. -/
theorem claim5_witness :
    ({ manager := { mgr0 with client_save_path := none },
       metrics := [("loss", ⟨1, 1⟩), ("accuracy", ⟨1, 1⟩)] } : TestOut).manager
        = { mgr0 with client_save_path := none }
    ∧ (({ mgr0 with client_save_path := none } : ModelManager).client_save_path = none
          ∨ (none : FS) = none →
        ({ manager := { mgr0 with client_save_path := none },
           metrics := [("loss", ⟨1, 1⟩), ("accuracy", ⟨1, 1⟩)] } : TestOut).manager
          = { mgr0 with client_save_path := none }) :=
  claim5_nofinetune_frame defaults0 oracle0
    { mgr0 with client_save_path := none } { mgr0 with client_save_path := none } none
    { manager := { mgr0 with client_save_path := none },
      metrics := [("loss", ⟨1, 1⟩), ("accuracy", ⟨1, 1⟩)] }
    (by decide) (by decide) (by decide)

/-- Claim C6: `get_parameters()` returns the body tensors followed by the
head tensors in state order, its length is the body tensor count plus the
head tensor count, and re-applying the returned values paired with the
model parameter names through `set_parameters` restores the model
bit-identically. -/
theorem claim6_get_set_roundtrip (m : ModelSplit)
    (hb : (m.body.map Param.name).Nodup) (hh : (m.head.map Param.name).Nodup) :
    m.get_parameters = (stateDictOf m.body).map (fun kv => kv.2)
        ++ (stateDictOf m.head).map (fun kv => kv.2)
    ∧ (m.get_parameters).length = m.body.length + m.head.length
    ∧ m.set_parameters ((fullKeys m).zip m.get_parameters) = .ok m := by
  refine ⟨rfl, ?_, ?_⟩
  · simp [ModelSplit.get_parameters, stateDictOf]
  · have hzip : (fullKeys m).zip m.get_parameters = fullStateDict m := by
      unfold fullKeys ModelSplit.get_parameters fullStateDict stateDictOf
      rw [List.map_map, List.map_map]
      rw [List.zip_append (by simp)]
      rw [List.zip_map' (fun p => Key.body p.name) _ m.body,
        List.zip_map' (fun p => Key.head p.name) _ m.head]
      rfl
    rw [hzip]
    have hlb : ∀ p ∈ m.body, fsdLookup (fullStateDict m) (Key.body p.name) = some p.value := by
      intro p hp
      unfold fullStateDict
      exact fsdLookup_append_left _ _ _ _
        (fsdLookup_tagged Key.body (fun a b hab => by injection hab) Param.value m.body hb p hp)
    have hlh : ∀ p ∈ m.head, fsdLookup (fullStateDict m) (Key.head p.name) = some p.value := by
      intro p hp
      unfold fullStateDict
      rw [fsdLookup_append_right _ _ _ (by
        intro kv hkv
        obtain ⟨q, _, rfl⟩ := List.mem_map.mp hkv
        simp)]
      exact fsdLookup_tagged Key.head (fun a b hab => by injection hab) Param.value m.head hh p hp
    have hm := set_parameters_merge m (fullStateDict m) hb hh
      (fun p hp t ht => by
        rw [hlb p hp] at ht
        injection ht with ht
        rw [ht])
      (fun p hp t ht => by
        rw [hlh p hp] at ht
        injection ht with ht
        rw [ht])
    rw [hm]
    congr 1
    have hB : m.body.map (fun p =>
        { p with value := (fsdLookup (fullStateDict m) (Key.body p.name)).getD p.value })
        = m.body := by
      have h1 : ∀ p ∈ m.body, ({ p with
          value := (fsdLookup (fullStateDict m) (Key.body p.name)).getD p.value } : Param) = p := by
        intro p hp
        rw [hlb p hp]
        rfl
      rw [List.map_congr_left h1, List.map_id']
    have hH : m.head.map (fun p =>
        { p with value := (fsdLookup (fullStateDict m) (Key.head p.name)).getD p.value })
        = m.head := by
      have h1 : ∀ p ∈ m.head, ({ p with
          value := (fsdLookup (fullStateDict m) (Key.head p.name)).getD p.value } : Param) = p := by
        intro p hp
        rw [hlh p hp]
        rfl
      rw [List.map_congr_left h1, List.map_id']
    rw [hB, hH]

/-- Witness for C6 at a concrete two-parameter model. -/
theorem claim6_witness :
    model0.get_parameters = (stateDictOf model0.body).map (fun kv => kv.2)
        ++ (stateDictOf model0.head).map (fun kv => kv.2)
    ∧ (model0.get_parameters).length = model0.body.length + model0.head.length
    ∧ model0.set_parameters ((fullKeys model0).zip model0.get_parameters) = .ok model0 :=
  claim6_get_set_roundtrip model0 (by decide) (by decide)

/-- Claim C7: the body and head property setters are strict merges: a mapping
missing an existing key raises, a mapping with a key unknown to the
sub-module raises, and a mapping with exactly the existing keys and matching
shapes succeeds and replaces every parameter of that sub-module. -/
theorem claim7_strict_setters (m : ModelSplit) (sd : StateDict) :
    ((∃ p ∈ m.head, sdLookup sd p.name = none) → ∃ e, m.setHead sd = .error e)
    ∧ ((∃ kv ∈ sd, ∀ p ∈ m.head, p.name ≠ kv.1) → ∃ e, m.setHead sd = .error e)
    ∧ ((∀ p ∈ m.head, ∃ t, sdLookup sd p.name = some t ∧ t.shape = p.value.shape)
        → (∀ kv ∈ sd, ∃ p ∈ m.head, p.name = kv.1)
        → m.setHead sd = .ok { m with head := m.head.map (fun p =>
            { p with value := (sdLookup sd p.name).getD p.value }) })
    ∧ ((∃ p ∈ m.body, sdLookup sd p.name = none) → ∃ e, m.setBody sd = .error e)
    ∧ ((∃ kv ∈ sd, ∀ p ∈ m.body, p.name ≠ kv.1) → ∃ e, m.setBody sd = .error e)
    ∧ ((∀ p ∈ m.body, ∃ t, sdLookup sd p.name = some t ∧ t.shape = p.value.shape)
        → (∀ kv ∈ sd, ∃ p ∈ m.body, p.name = kv.1)
        → m.setBody sd = .ok { m with body := m.body.map (fun p =>
            { p with value := (sdLookup sd p.name).getD p.value }) }) := by
  refine ⟨?_, ?_, ?_, ?_, ?_, ?_⟩
  · intro hmiss
    obtain ⟨e, he⟩ := loadStateDict_error_missing m.head sd hmiss
    exact ⟨e, by unfold ModelSplit.setHead; rw [he]⟩
  · intro hunex
    obtain ⟨e, he⟩ := loadStateDict_error_unexpected m.head sd hunex
    exact ⟨e, by unfold ModelSplit.setHead; rw [he]⟩
  · intro hv hexact
    have hf : ∀ p ∈ m.head, sdLookup sd p.name = some ((sdLookup sd p.name).getD p.value) := by
      intro p hp
      obtain ⟨t, ht, _⟩ := hv p hp
      rw [ht]
      rfl
    have hs : ∀ p ∈ m.head, ((sdLookup sd p.name).getD p.value).shape = p.value.shape := by
      intro p hp
      obtain ⟨t, ht, hts⟩ := hv p hp
      rw [ht]
      exact hts
    have hok := loadStateDict_ok_of_lookup true m.head sd
      (fun p => (sdLookup sd p.name).getD p.value) hf hs (fun _ => hexact)
    unfold ModelSplit.setHead
    rw [hok]
  · intro hmiss
    obtain ⟨e, he⟩ := loadStateDict_error_missing m.body sd hmiss
    exact ⟨e, by unfold ModelSplit.setBody; rw [he]⟩
  · intro hunex
    obtain ⟨e, he⟩ := loadStateDict_error_unexpected m.body sd hunex
    exact ⟨e, by unfold ModelSplit.setBody; rw [he]⟩
  · intro hv hexact
    have hf : ∀ p ∈ m.body, sdLookup sd p.name = some ((sdLookup sd p.name).getD p.value) := by
      intro p hp
      obtain ⟨t, ht, _⟩ := hv p hp
      rw [ht]
      rfl
    have hs : ∀ p ∈ m.body, ((sdLookup sd p.name).getD p.value).shape = p.value.shape := by
      intro p hp
      obtain ⟨t, ht, hts⟩ := hv p hp
      rw [ht]
      exact hts
    have hok := loadStateDict_ok_of_lookup true m.body sd
      (fun p => (sdLookup sd p.name).getD p.value) hf hs (fun _ => hexact)
    unfold ModelSplit.setBody
    rw [hok]

/-- Witness for C7: an exact head mapping succeeds and replaces the head
parameter. -/
theorem claim7_witness :
    model0.setHead [("h", tenOf 9)] = .ok { model0 with head := model0.head.map (fun p =>
      { p with value := (sdLookup [("h", tenOf 9)] p.name).getD p.value }) } :=
  (claim7_strict_setters model0 [("h", tenOf 9)]).2.2.1
    (by
      intro p hp
      simp only [model0, ph] at hp
      rw [List.mem_singleton] at hp
      subst hp
      exact ⟨tenOf 9, rfl, rfl⟩)
    (by
      intro kv hkv
      rw [List.mem_singleton] at hkv
      subst hkv
      exact ⟨ph, by simp [model0], rfl⟩)

/-- Claim C8: `set_parameters` is a permissive merge: keys matching the full
model state are overwritten with the supplied values, model keys absent from
the input keep their current values, and input keys unknown to the model are
ignored rather than rejected. -/
theorem claim8_permissive_merge (m : ModelSplit) (sd : FullSD)
    (hb : (m.body.map Param.name).Nodup) (hh : (m.head.map Param.name).Nodup)
    (hsb : ∀ p ∈ m.body, ∀ t, fsdLookup sd (Key.body p.name) = some t
      → t.shape = p.value.shape)
    (hsh : ∀ p ∈ m.head, ∀ t, fsdLookup sd (Key.head p.name) = some t
      → t.shape = p.value.shape) :
    m.set_parameters sd = .ok
      { body := m.body.map (fun p =>
          { p with value := (fsdLookup sd (Key.body p.name)).getD p.value }),
        head := m.head.map (fun p =>
          { p with value := (fsdLookup sd (Key.head p.name)).getD p.value }) } :=
  set_parameters_merge m sd hb hh hsb hsh

/-- Witness for C8: an input binding the body key, omitting the head key and
carrying a foreign key merges permissively. -/
theorem claim8_witness :
    model0.set_parameters [(Key.body "w", tenOf 9), (Key.other "zz", tenOf 1)] = .ok
      { body := model0.body.map (fun p =>
          { p with value := (fsdLookup [(Key.body "w", tenOf 9), (Key.other "zz", tenOf 1)]
              (Key.body p.name)).getD p.value }),
        head := model0.head.map (fun p =>
          { p with value := (fsdLookup [(Key.body "w", tenOf 9), (Key.other "zz", tenOf 1)]
              (Key.head p.name)).getD p.value }) } :=
  claim8_permissive_merge model0 [(Key.body "w", tenOf 9), (Key.other "zz", tenOf 1)]
    (by decide) (by decide)
    (by
      intro p hp t ht
      simp only [model0, pw] at hp
      rw [List.mem_singleton] at hp
      subst hp
      have hcomp : fsdLookup [(Key.body "w", tenOf 9), (Key.other "zz", tenOf 1)]
          (Key.body "w") = some (tenOf 9) := rfl
      rw [hcomp] at ht
      injection ht with ht
      rw [← ht]
      rfl)
    (by
      intro p hp t ht
      simp only [model0, ph] at hp
      rw [List.mem_singleton] at hp
      subst hp
      have hcomp : fsdLookup [(Key.body "w", tenOf 9), (Key.other "zz", tenOf 1)]
          (Key.head "h") = none := rfl
      rw [hcomp] at ht
      exact absurd ht (by simp))

end Fedrep
